import Mathlib

/-!
Shallow embedding of `update.py` from the italia-wikidata repository.

The embedded code is the reconciliation core of `main()`:
  * the OSM index builder (lines 198-204),
  * the Wikidata catalog row loop producing GeoJSON features (lines 210-232),
  * the per-region pipeline with cache fallback and metadata merge
    (lines 133-196 and 241-243).

Python strings are Lean `String`s; Python dicts are association lists with
overwrite-in-place insertion (`dinsert`), which models CPython dict update
semantics (value overwritten, key position kept, keys unique); Python sets
are lists used through membership only.  Python floats are modelled by
`PyFloat` (an exact rational, or an infinity, or NaN).  File writes and
prints are modelled by the fields of `RunState`; the raw-OSM cache file
`osm_<key>.json` is modelled by the `cacheFile` field of a `RegionRun`.
-/

set_option autoImplicit false
set_option maxRecDepth 8192

/-- Python whitespace characters recognised by `str.strip()`. -/
def isPySpace (c : Char) : Bool :=
  c = ' ' || c = '\t' || c = '\n' || c = '\r' || c = '\x0b' || c = '\x0c'

/-- Python `str.strip()`: remove leading and trailing whitespace. -/
def pyStrip (s : String) : String :=
  String.mk (((s.toList.dropWhile isPySpace).reverse.dropWhile isPySpace).reverse)

/-- Python `str.upper()` (all characters involved here are ASCII). -/
def pyUpper (s : String) : String :=
  String.mk (s.toList.map Char.toUpper)

/-- Splitting a character list at every occurrence of a separator character.
Mirrors Python `str.split(sep)` with an explicit separator: the empty string
yields `[[]]`, and adjacent separators yield empty chunks. -/
def splitOnCharL (sep : Char) : List Char → List (List Char)
  | [] => [[]]
  | c :: rest =>
      match splitOnCharL sep rest, decide (c = sep) with
      | r, true => [] :: r
      | [], false => [[c]]
      | h :: t, false => (c :: h) :: t

/-- Python `str.split(sep)` with a one-character separator. -/
def pySplit (sep : Char) (s : String) : List String :=
  (splitOnCharL sep s.toList).map String.mk

/-- Python truthiness of an optional string (`None` and `""` are falsy). -/
def pyTruthy : Option String → Bool
  | none => false
  | some s => s ≠ ""

/-- Python `a or b` on optional strings: `b` when `a` is falsy, else `a`. -/
def pyOr (a b : Option String) : Option String :=
  if pyTruthy a then a else b

/-- Python `s.startswith(pre)`. -/
def pyStartsWith (pre s : String) : Bool :=
  pre.toList.isPrefixOf s.toList

/-- Substring containment on character lists: Python `needle in hay`. -/
def containsSub : List Char → List Char → Bool
  | needle, [] => needle.isEmpty
  | needle, c :: rest => needle.isPrefixOf (c :: rest) || containsSub needle rest

/-- Python `needle in hay` on strings. -/
def strContains (needle hay : String) : Bool :=
  containsSub needle.toList hay.toList

/-- Association-list lookup, first binding wins (keys are unique under
`dinsert`, so this is CPython `dict.get`). -/
def dget? {α : Type} : List (String × α) → String → Option α
  | [], _ => none
  | (k, v) :: rest, key => if k = key then some v else dget? rest key

/-- Association-list insert with overwrite in place: CPython
`d[key] = value` (existing key keeps its position, value replaced). -/
def dinsert {α : Type} : List (String × α) → String → α → List (String × α)
  | [], key, value => [(key, value)]
  | (k, v) :: rest, key, value =>
      if k = key then (key, value) :: rest else (k, v) :: dinsert rest key value

/-- One OSM element from the Overpass response: `{type, id, tags}`.
`tags` is `none` when the JSON object has no `tags` member
(the code reads it as `el.get('tags', {})`). -/
structure MapElement where
  type : String
  id : Int
  tags : Option (List (String × String))
  deriving DecidableEq, Repr

/-- The reference string the index stores: Python spells it
with an f-string from the element type and id. -/
def refStr (el : MapElement) : String :=
  el.type ++ "/" ++ toString el.id

/-- `el.get('tags', {})` followed by dict lookup. -/
def tagGet? (el : MapElement) (key : String) : Option String :=
  dget? (el.tags.getD []) key

/-- Lines 201-203: `el['tags']['wikidata'].replace(',', ';')` then
`.split(';')` — the raw token pieces of one wikidata tag value. -/
def rawTokens (v : String) : List String :=
  pySplit ';' (String.mk (v.toList.map (fun c => if c = ',' then ';' else c)))

/-- Line 203: `raw.strip().upper()`. -/
def normTok (raw : String) : String :=
  pyUpper (pyStrip raw)

/-- Lines 200-204: process one element into the accumulating index dict:
if it has a `wikidata` tag, split its value and register every stripped,
upper-cased token that starts with `Q` against the element's reference. -/
def addElement (d : List (String × String)) (el : MapElement) : List (String × String) :=
  match tagGet? el "wikidata" with
  | none => d
  | some v =>
      (rawTokens v).foldl
        (fun d0 raw =>
          let tok := normTok raw
          if pyStartsWith "Q" tok then dinsert d0 tok (refStr el) else d0) d

/-- Lines 198-204: `osm_ids`, the map index built over all elements. -/
def buildOsmIds (els : List MapElement) : List (String × String) :=
  els.foldl addElement []

/-- The normalized identifiers an element contributes to the index:
its stripped, upper-cased tokens that start with `Q`. -/
def elementTokens (el : MapElement) : List String :=
  match tagGet? el "wikidata" with
  | none => []
  | some v => ((rawTokens v).map normTok).filter (fun t => pyStartsWith "Q" t)

/-- A Python float value: an exact finite rational, an infinity, or NaN.
(The code never does arithmetic on these, only stores them, so keeping
finite values exact is adequate; rounding of decimal literals to binary
doubles, and overflow of huge literals to infinity, are not modelled.) -/
inductive PyFloat where
  | finite (q : ℚ)
  | inf
  | neginf
  | nan
  deriving DecidableEq, Repr

/-- Numeric value of a digit list (all characters assumed digits). -/
def digitsVal (cs : List Char) : ℕ :=
  cs.foldl (fun n c => 10 * n + (c.toNat - 48)) 0

/-- A nonempty all-digit chunk. -/
def parseNatDigits? (cs : List Char) : Option ℕ :=
  if cs ≠ [] ∧ cs.all Char.isDigit then some (digitsVal cs) else none

/-- An unsigned decimal magnitude: `123`, `123.`, `.5`, `1.25`. -/
def parseMagnitude? (cs : List Char) : Option ℚ :=
  match splitOnCharL '.' cs with
  | [whole] => (parseNatDigits? whole).map (fun n => (n : ℚ))
  | [whole, frac] =>
      if (whole ≠ [] ∨ frac ≠ []) ∧ whole.all Char.isDigit ∧ frac.all Char.isDigit then
        some ((digitsVal whole : ℚ) + (digitsVal frac : ℚ) / (10 : ℚ) ^ frac.length)
      else none
  | _ => none

/-- A signed exponent part (after the `e`). -/
def parseExponent? : List Char → Option ℤ
  | '+' :: rest => (parseNatDigits? rest).map Int.ofNat
  | '-' :: rest => (parseNatDigits? rest).map (fun n => -(n : ℤ))
  | cs => (parseNatDigits? cs).map Int.ofNat

/-- An unsigned numeric body, magnitude with optional `e` exponent
(the input has already been lower-cased). -/
def parseNumBody? (cs : List Char) : Option ℚ :=
  match splitOnCharL 'e' cs with
  | [m] => parseMagnitude? m
  | [m, ex] =>
      match parseMagnitude? m, parseExponent? ex with
      | some mq, some eq => some (mq * (10 : ℚ) ^ eq)
      | _, _ => none
  | _ => none

/-- Python's builtin `float(str)`: strips surrounding whitespace, takes an
optional sign, then either the words `inf`, `infinity` or `nan`
(case-insensitive) or a decimal literal with optional fraction and
exponent.  Anything else raises `ValueError`, modelled as `none`.
(Digit-group underscores are not modelled.) -/
def pyFloat? (s : String) : Option PyFloat :=
  let low := (pyStrip s).toList.map Char.toLower
  let signed : Bool × List Char :=
    match low with
    | '+' :: rest => (false, rest)
    | '-' :: rest => (true, rest)
    | cs => (false, cs)
  let neg := signed.1
  let body := signed.2
  if body = "inf".toList ∨ body = "infinity".toList then
    some (if neg then PyFloat.neginf else PyFloat.inf)
  else if body = "nan".toList then some PyFloat.nan
  else
    match parseNumBody? body with
    | some q => some (PyFloat.finite (if neg then -q else q))
    | none => none

/-- `float(x)` where `x` is an optional string: `float(None)` raises
`TypeError`, also modelled as `none`. -/
def pyFloatOpt : Option String → Option PyFloat
  | none => none
  | some s => pyFloat? s

/-- One `csv.DictReader` row of the Wikidata response, restricted to the
columns the code reads (`row.get` on an absent column is `None`). -/
structure Row where
  qid : Option String
  qidSigil : Option String
  lat : Option String
  latSigil : Option String
  lon : Option String
  lonSigil : Option String
  label : Option String
  labelSigil : Option String
  deriving DecidableEq, Repr

/-- One emitted GeoJSON feature, restricted to the fields the code writes:
properties `wikidata`, `name`, `status`, `osm_id` and the point
`coordinates [lon, lat]`. -/
structure Feature where
  wikidata : String
  name : String
  status : String
  osm_id : Option String
  coordinates : PyFloat × PyFloat
  deriving DecidableEq, Repr

/-- Line 217: `qid.split('/')[-1].upper()`. -/
def canonQid (s : String) : String :=
  pyUpper ((pySplit '/' s).getLastD "")

/-- The accumulating state of the row loop: the `features` list and the
`seen` set (a list used through membership). -/
structure JoinState where
  features : List Feature
  seen : List String
  deriving DecidableEq, Repr

/-- Lines 214-232, one iteration: get the qid (`row.get('qid') or
row.get('?qid')`, skip when falsy), canonicalise it, skip when already
seen, parse lat/lon (skipping on a `float` exception), default the label
to the qid, look the qid up in `osm_ids` for the status and `osm_id`,
append the feature and mark the qid seen. -/
def processRow (osmIds : List (String × String)) (st : JoinState) (row : Row) : JoinState :=
  let q0 := pyOr row.qid row.qidSigil
  if pyTruthy q0 = false then st
  else
    let qid := canonQid (q0.getD "")
    if qid ∈ st.seen then st
    else
      match pyFloatOpt (pyOr row.lat row.latSigil), pyFloatOpt (pyOr row.lon row.lonSigil) with
      | some latV, some lonV =>
          let label := (pyOr (pyOr row.label row.labelSigil) (some qid)).getD ""
          let status := if pyTruthy (dget? osmIds qid) then "done" else "missing"
          { features := st.features ++
              [{ wikidata := qid, name := label, status := status,
                 osm_id := dget? osmIds qid, coordinates := (lonV, latV) }],
            seen := qid :: st.seen }
      | _, _ => st

/-- Lines 210-232: the full row loop over a region's catalog rows. -/
def joinRows (osmIds : List (String × String)) (rows : List Row) : List Feature :=
  (rows.foldl (processRow osmIds) { features := [], seen := [] }).features

/-- The canonical id a row would contribute, `none` when the row is
skipped at the qid test. -/
def rowQid (row : Row) : Option String :=
  let q0 := pyOr row.qid row.qidSigil
  if pyTruthy q0 = false then none else some (canonQid (q0.getD ""))

/-- Whether a row survives every per-row check except the `seen` test:
its qid is truthy and its lat and lon both parse. -/
def rowParses (row : Row) : Bool :=
  (rowQid row).isSome
    && (pyFloatOpt (pyOr row.lat row.latSigil)).isSome
    && (pyFloatOpt (pyOr row.lon row.lonSigil)).isSome

/-- One region's entry of `metadata.json` under `"regions"`, restricted to
the keys the code reads and writes: `osm` and `wiki`
(`old_region_meta[key].get("osm", "Unknown")` tolerates a missing key). -/
structure RegionMeta where
  osm : Option String
  wiki : Option String
  deriving DecidableEq, Repr

/-- Lines 183-184: annotate an inherited OSM freshness date on the cache
path: append `" (Cached)"` unless the date already contains `"(Cached)"`. -/
def markCached (oldDate : String) : String :=
  if strContains "(Cached)" oldDate then oldDate else oldDate ++ " (Cached)"

/-- Lines 154 and 180-184: the `current_osm_date` used when the live OSM
fetch fails: the prior run's date for this key, marked cached, or the
initial `"Unknown"` when the key has no prior entry. -/
def cacheFallbackDate (oldMeta : List (String × RegionMeta)) (key : String) : String :=
  match dget? oldMeta key with
  | none => "Unknown"
  | some e => markCached (e.osm.getD "Unknown")

/-- The external world of one iteration of the region loop: the region's
key, the Overpass fetch outcome (`new_data`, `none` after exhausted
retries), the content of the cache file `osm_<key>.json` (`none` when
absent or unreadable), and the Wikidata fetch outcome as parsed CSV rows
(`none` when the request failed). -/
structure RegionRun where
  key : String
  fetchResult : Option (List MapElement)
  cacheFile : Option (List MapElement)
  catalogResult : Option (List Row)
  deriving Repr

/-- The mutable run state of `main()`: `new_region_meta`, the written
`data_<key>.geojson` files and `processed_count`. -/
structure RunState where
  meta : List (String × RegionMeta)
  outputs : List (String × List Feature)
  processed : ℕ
  deriving Repr

/-- Lines 152-239, one iteration of the region loop.  On fetch success the
element list is used live and dated `nowStr`; on failure the cache file is
used with the prior date marked cached.  With no data at all the region is
skipped before any state change.  Otherwise `new_region_meta[key]` is
overwritten (line 196, before the catalog fetch), the index is built, and
only when the catalog fetch succeeded are the joined features written and
`processed_count` bumped. -/
def processRegion (nowStr : String) (oldMeta : List (String × RegionMeta))
    (st : RunState) (r : RegionRun) : RunState :=
  let osmData : Option (List MapElement) :=
    match r.fetchResult with
    | some d => some d
    | none => r.cacheFile
  let currentOsmDate : String :=
    match r.fetchResult with
    | some _ => nowStr
    | none => cacheFallbackDate oldMeta r.key
  match osmData with
  | none => st
  | some data =>
      let st1 : RunState :=
        { st with meta := dinsert st.meta r.key { osm := some currentOsmDate, wiki := some nowStr } }
      let osmIds := buildOsmIds data
      match r.catalogResult with
      | none => st1
      | some rows =>
          { st1 with
            outputs := st1.outputs ++ [(r.key, joinRows osmIds rows)],
            processed := st1.processed + 1 }

/-- Lines 133-144 and 147-239: the whole region loop.  `new_region_meta`
starts as a copy of the prior run's metadata; the cache-date lookup always
consults the prior metadata, never the accumulating copy. -/
def runRegions (nowStr : String) (oldMeta : List (String × RegionMeta))
    (runs : List RegionRun) : RunState :=
  runs.foldl (processRegion nowStr oldMeta) { meta := oldMeta, outputs := [], processed := 0 }

/-- Lines 241-243: the `regions` mapping persisted to `metadata.json`,
written only when at least one region was fully processed. -/
def persistedMeta (st : RunState) : Option (List (String × RegionMeta)) :=
  if st.processed > 0 then some st.meta else none

/-- The three reconciliation statuses of the spec's data model. -/
inductive Status where
  | done
  | missing
  | broad
  deriving DecidableEq, Repr

/-- Modelled from the spec: the optional configuration of the Status
Classifier (spec 4.4) — a set of broad classification identifiers and the
enable flag of the parent-count auxiliary signal.  This configuration and
the `broad` branch are absent from `src/update.py` (which only ever
assigns `done` or `missing`); the spec records them as behavior of
historical revisions of this logic, to be treated as configuration. -/
structure ClassifierConfig where
  broadClasses : List String
  parentSignal : Bool
  deriving DecidableEq, Repr

/-- The spec's CatalogRecord (spec section 3): the code's parsed row plus
the optional classification fields of the historical revisions. -/
structure CatalogRecord where
  id : String
  lat : PyFloat
  lon : PyFloat
  label : String
  classId : Option String
  parentCount : Option ℕ
  deriving DecidableEq, Repr

/-- Modelled from the spec: the Status Classifier (spec 4.4).  Step 1 is
the code's index lookup of line 225 (`done` with the map reference when
present, else `missing`); step 2, absent from `src/update.py`, overrides
the status to `broad` when the classification matches a configured broad
class or, when the parent-count signal is enabled, the parent count
exceeds 1. -/
def classify (cfg : ClassifierConfig) (idx : List (String × String))
    (rec : CatalogRecord) : Status × Option String :=
  let base : Status × Option String :=
    match dget? idx rec.id with
    | some r => (Status.done, some r)
    | none => (Status.missing, none)
  let isBroad :=
    (match rec.classId with
     | some c => cfg.broadClasses.contains c
     | none => false)
    || (cfg.parentSignal &&
        (match rec.parentCount with
         | some n => decide (1 < n)
         | none => false))
  if isBroad then (Status.broad, base.2) else base

/-! ### Helper lemmas about the dict model -/

theorem dget_dinsert {α : Type} (d : List (String × α)) (key k : String) (v : α) :
    dget? (dinsert d key v) k = if key = k then some v else dget? d k := by
  induction d with
  | nil => simp [dinsert, dget?]
  | cons p rest ih =>
      obtain ⟨k0, v0⟩ := p
      by_cases h0 : k0 = key
      · subst h0
        by_cases hk : k0 = k <;> simp [dinsert, dget?, hk]
      · by_cases hk : k0 = k
        · subst hk
          have hne : ¬ key = k0 := fun h => h0 h.symm
          simp [dinsert, dget?, h0, hne]
        · simp [dinsert, dget?, h0, hk, ih]

theorem dget_dinsert_ne {α : Type} (d : List (String × α)) (key k : String) (v : α)
    (h : key ≠ k) : dget? (dinsert d key v) k = dget? d k := by
  simp [dget_dinsert, h]

theorem dget_dinsert_isSome {α : Type} (d : List (String × α)) (key k : String) (v : α)
    (h : (dget? d k).isSome) : (dget? (dinsert d key v) k).isSome := by
  rw [dget_dinsert]
  by_cases hk : key = k <;> simp [hk, h]

theorem dinsert_cons_eq {α : Type} (rest : List (String × α)) (k0 : String) (v0 v : α) :
    dinsert ((k0, v0) :: rest) k0 v = (k0, v) :: rest := by
  simp [dinsert]

theorem dinsert_cons_ne {α : Type} (rest : List (String × α)) (k0 key : String) (v0 v : α)
    (h : k0 ≠ key) : dinsert ((k0, v0) :: rest) key v = (k0, v0) :: dinsert rest key v := by
  simp [dinsert, h]

/-- The keys of a dict after an overwrite insert. -/
theorem mem_keys_dinsert {α : Type} (d : List (String × α)) (key a : String) (v : α) :
    a ∈ (dinsert d key v).map Prod.fst ↔ a = key ∨ a ∈ d.map Prod.fst := by
  induction d with
  | nil => simp [dinsert]
  | cons p rest ih =>
      obtain ⟨k0, v0⟩ := p
      by_cases h0 : k0 = key
      · subst h0
        rw [dinsert_cons_eq]
        simp only [List.map_cons, List.mem_cons]
        tauto
      · rw [dinsert_cons_ne rest k0 key v0 v h0]
        simp only [List.map_cons, List.mem_cons, ih]
        tauto

/-- Overwrite insertion keeps dict keys unique. -/
theorem keys_nodup_dinsert {α : Type} (d : List (String × α)) (key : String) (v : α)
    (h : (d.map Prod.fst).Nodup) : ((dinsert d key v).map Prod.fst).Nodup := by
  induction d with
  | nil => simp [dinsert]
  | cons p rest ih =>
      obtain ⟨k0, v0⟩ := p
      simp only [List.map_cons, List.nodup_cons] at h
      by_cases h0 : k0 = key
      · subst h0
        rw [dinsert_cons_eq]
        simp only [List.map_cons, List.nodup_cons]
        exact h
      · rw [dinsert_cons_ne rest k0 key v0 v h0]
        simp only [List.map_cons, List.nodup_cons]
        refine ⟨?_, ih h.2⟩
        rw [mem_keys_dinsert]
        rintro (rfl | hmem)
        · exact h0 rfl
        · exact h.1 hmem

theorem filter_key_nil {α : Type} (d : List (String × α)) (q : String)
    (h : q ∉ d.map Prod.fst) : d.filter (fun p => p.1 = q) = [] := by
  induction d with
  | nil => rfl
  | cons p rest ih =>
      obtain ⟨k0, v0⟩ := p
      simp only [List.map_cons, List.mem_cons] at h
      push_neg at h
      have hne : ¬ (k0 = q) := fun hx => h.1 hx.symm
      simp [List.filter, hne, ih h.2]

/-- In a key-unique dict, a present key occupies exactly one entry. -/
theorem filter_key_length {α : Type} (d : List (String × α)) (q : String) (v : α)
    (hnodup : (d.map Prod.fst).Nodup) (hget : dget? d q = some v) :
    (d.filter (fun p => p.1 = q)).length = 1 := by
  induction d with
  | nil => simp [dget?] at hget
  | cons p rest ih =>
      obtain ⟨k0, v0⟩ := p
      simp only [List.map_cons, List.nodup_cons] at hnodup
      by_cases h0 : k0 = q
      · subst h0
        simp [List.filter, filter_key_nil rest k0 hnodup.1]
      · simp only [dget?, if_neg h0] at hget
        simp [List.filter, h0, ih hnodup.2 hget]

/-! ### Helper lemmas about substring containment -/

theorem containsSub_append_left (needle a b : List Char)
    (h : containsSub needle b = true) : containsSub needle (a ++ b) = true := by
  induction a with
  | nil => simpa using h
  | cons c rest ih => simp [containsSub, ih]

theorem strContains_append (needle s t : String)
    (h : strContains needle t = true) : strContains needle (s ++ t) = true := by
  unfold strContains at h ⊢
  have hsplit : (s ++ t).toList = s.toList ++ t.toList := by
    simp [String.toList, String.data_append]
  rw [hsplit]
  exact containsSub_append_left _ _ _ h

theorem strContains_mark : strContains "(Cached)" " (Cached)" = true := by decide

theorem markCached_of_contains (s : String) (h : strContains "(Cached)" s = true) :
    markCached s = s := by
  simp [markCached, h]

theorem markCached_of_not_contains (s : String) (h : ¬ strContains "(Cached)" s = true) :
    markCached s = s ++ " (Cached)" := by
  simp [markCached, h]

theorem markCached_contains (s : String) :
    strContains "(Cached)" (markCached s) = true := by
  by_cases h : strContains "(Cached)" s = true
  · rw [markCached_of_contains s h]
    exact h
  · rw [markCached_of_not_contains s h]
    exact strContains_append _ _ _ strContains_mark

theorem markCached_idem (s : String) : markCached (markCached s) = markCached s := by
  exact markCached_of_contains _ (markCached_contains s)

/-! ### Helper lemmas about the map index builder -/

theorem dget_token_fold (ref q : String) :
    ∀ (toks : List String) (d : List (String × String)),
      dget? (toks.foldl (fun d0 raw =>
          let tok := normTok raw
          if pyStartsWith "Q" tok then dinsert d0 tok ref else d0) d) q =
      if q ∈ (toks.map normTok).filter (fun t => pyStartsWith "Q" t) then some ref
      else dget? d q := by
  intro toks
  induction toks with
  | nil => intro d; simp
  | cons raw rest ih =>
      intro d
      simp only [List.foldl_cons]
      rw [ih]
      by_cases hstart : pyStartsWith "Q" (normTok raw) = true
      · by_cases hrest : q ∈ (rest.map normTok).filter (fun t => pyStartsWith "Q" t)
        · simp [List.filter_cons, hstart, hrest]
        · simp only [List.map_cons, List.filter_cons, hstart, if_true, if_neg hrest,
            dget_dinsert, List.mem_cons]
          by_cases heq : normTok raw = q
          · simp [heq]
          · have hne : ¬ q = normTok raw := fun hx => heq hx.symm
            simp [heq, hne, hrest]
      · simp [List.filter_cons, hstart]

theorem dget_addElement (d : List (String × String)) (el : MapElement) (q : String) :
    dget? (addElement d el) q =
      if q ∈ elementTokens el then some (refStr el) else dget? d q := by
  unfold addElement elementTokens
  cases htag : tagGet? el "wikidata" with
  | none => simp
  | some v => exact dget_token_fold (refStr el) q (rawTokens v) d

theorem keys_nodup_token_fold (ref : String) :
    ∀ (toks : List String) (d : List (String × String)),
      (d.map Prod.fst).Nodup →
      (((toks.foldl (fun d0 raw =>
          let tok := normTok raw
          if pyStartsWith "Q" tok then dinsert d0 tok ref else d0) d)).map Prod.fst).Nodup := by
  intro toks
  induction toks with
  | nil => intro d h; simpa using h
  | cons raw rest ih =>
      intro d h
      simp only [List.foldl_cons]
      apply ih
      by_cases hstart : pyStartsWith "Q" (normTok raw) = true
      · simpa [hstart] using keys_nodup_dinsert d (normTok raw) ref h
      · simpa [hstart] using h

theorem keys_nodup_addElement (d : List (String × String)) (el : MapElement)
    (h : (d.map Prod.fst).Nodup) : ((addElement d el).map Prod.fst).Nodup := by
  unfold addElement
  cases htag : tagGet? el "wikidata" with
  | none => exact h
  | some v => exact keys_nodup_token_fold (refStr el) (rawTokens v) d h

theorem keys_nodup_buildOsmIds (els : List MapElement) :
    ((buildOsmIds els).map Prod.fst).Nodup := by
  suffices h : ∀ (els : List MapElement) (d : List (String × String)),
      (d.map Prod.fst).Nodup → ((els.foldl addElement d).map Prod.fst).Nodup by
    exact h els [] (by simp)
  intro els
  induction els with
  | nil => intro d h; simpa using h
  | cons el rest ih =>
      intro d h
      simp only [List.foldl_cons]
      exact ih _ (keys_nodup_addElement d el h)

theorem startsWith_of_mem_elementTokens (el : MapElement) (q : String)
    (h : q ∈ elementTokens el) : pyStartsWith "Q" q = true := by
  unfold elementTokens at h
  cases htag : tagGet? el "wikidata" with
  | none => rw [htag] at h; simp at h
  | some v =>
      rw [htag] at h
      exact (List.mem_filter.mp h).2

/-- Elements that do not carry an identifier leave its index entry
unchanged. -/
theorem dget_foldl_not_mem (q : String) :
    ∀ (els : List MapElement) (d : List (String × String)),
      (∀ e ∈ els, q ∉ elementTokens e) →
      dget? (els.foldl addElement d) q = dget? d q := by
  intro els
  induction els with
  | nil => intro d _; rfl
  | cons el rest ih =>
      intro d h
      simp only [List.foldl_cons]
      rw [ih _ (fun e he => h e (List.mem_cons_of_mem _ he)),
          dget_addElement, if_neg (h el (List.mem_cons_self _ _))]

theorem buildOsmIds_keys_startQ :
    ∀ (els : List MapElement) (d : List (String × String)),
      (∀ q r, dget? d q = some r → pyStartsWith "Q" q = true) →
      ∀ q r, dget? (els.foldl addElement d) q = some r → pyStartsWith "Q" q = true := by
  intro els
  induction els with
  | nil => intro d hd; simpa using hd
  | cons el rest ih =>
      intro d hd q r hq
      simp only [List.foldl_cons] at hq
      refine ih (addElement d el) ?_ q r hq
      intro q2 r2 hq2
      rw [dget_addElement] at hq2
      by_cases hm : q2 ∈ elementTokens el
      · exact startsWith_of_mem_elementTokens el q2 hm
      · rw [if_neg hm] at hq2
        exact hd q2 r2 hq2

/-! ### Helper lemmas about the catalog row loop -/

theorem pyOr_of_falsy (a b : Option String) (h : pyTruthy a = false) : pyOr a b = b := by
  simp [pyOr, h]

theorem processRow_skip_noqid (osmIds : List (String × String)) (st : JoinState) (row : Row)
    (h : pyTruthy (pyOr row.qid row.qidSigil) = false) :
    processRow osmIds st row = st := by
  unfold processRow
  rw [if_pos h]

theorem processRow_skip_seen (osmIds : List (String × String)) (st : JoinState) (row : Row)
    (q : String) (hq : rowQid row = some q) (hseen : q ∈ st.seen) :
    processRow osmIds st row = st := by
  unfold processRow
  unfold rowQid at hq
  by_cases hb : pyTruthy (pyOr row.qid row.qidSigil) = false
  · rw [if_pos hb]
  · rw [if_neg hb] at hq ⊢
    have hqe : canonQid ((pyOr row.qid row.qidSigil).getD "") = q := Option.some.inj hq
    rw [hqe, if_pos hseen]

theorem processRow_skip_float (osmIds : List (String × String)) (st : JoinState) (row : Row)
    (h : pyFloatOpt (pyOr row.lat row.latSigil) = none
       ∨ pyFloatOpt (pyOr row.lon row.lonSigil) = none) :
    processRow osmIds st row = st := by
  unfold processRow
  by_cases hb : pyTruthy (pyOr row.qid row.qidSigil) = false
  · rw [if_pos hb]
  · rw [if_neg hb]
    by_cases hseen : canonQid ((pyOr row.qid row.qidSigil).getD "") ∈ st.seen
    · rw [if_pos hseen]
    · rw [if_neg hseen]
      cases hlat : pyFloatOpt (pyOr row.lat row.latSigil) with
      | none =>
          cases hlon : pyFloatOpt (pyOr row.lon row.lonSigil) <;> rfl
      | some latV =>
          cases hlon : pyFloatOpt (pyOr row.lon row.lonSigil) with
          | none => rfl
          | some lonV =>
              rw [hlat, hlon] at h
              rcases h with h | h <;> exact absurd h (by simp)

theorem processRow_emits (osmIds : List (String × String)) (st : JoinState) (row : Row)
    (q : String) (latV lonV : PyFloat)
    (hq : rowQid row = some q) (hseen : q ∉ st.seen)
    (hlat : pyFloatOpt (pyOr row.lat row.latSigil) = some latV)
    (hlon : pyFloatOpt (pyOr row.lon row.lonSigil) = some lonV) :
    processRow osmIds st row =
      { features := st.features ++
          [{ wikidata := q,
             name := (pyOr (pyOr row.label row.labelSigil) (some q)).getD "",
             status := if pyTruthy (dget? osmIds q) then "done" else "missing",
             osm_id := dget? osmIds q,
             coordinates := (lonV, latV) }],
        seen := q :: st.seen } := by
  unfold processRow
  unfold rowQid at hq
  by_cases hb : pyTruthy (pyOr row.qid row.qidSigil) = false
  · rw [if_pos hb] at hq
    exact absurd hq (by simp)
  · rw [if_neg hb] at hq
    have hqe : canonQid ((pyOr row.qid row.qidSigil).getD "") = q := Option.some.inj hq
    rw [if_neg hb, hqe, if_neg hseen, hlat, hlon]

/-- One iteration of the row loop either leaves the state unchanged or
appends exactly one feature whose id was not yet seen and marks it seen. -/
theorem processRow_cases (osmIds : List (String × String)) (st : JoinState) (row : Row) :
    processRow osmIds st row = st ∨
    ∃ f : Feature, f.wikidata ∉ st.seen ∧
      processRow osmIds st row =
        { features := st.features ++ [f], seen := f.wikidata :: st.seen } := by
  unfold processRow
  by_cases hb : pyTruthy (pyOr row.qid row.qidSigil) = false
  · left; rw [if_pos hb]
  · rw [if_neg hb]
    by_cases hseen : canonQid ((pyOr row.qid row.qidSigil).getD "") ∈ st.seen
    · left; rw [if_pos hseen]
    · rw [if_neg hseen]
      cases hlat : pyFloatOpt (pyOr row.lat row.latSigil) with
      | none => cases hlon : pyFloatOpt (pyOr row.lon row.lonSigil) <;> (left; rfl)
      | some latV =>
          cases hlon : pyFloatOpt (pyOr row.lon row.lonSigil) with
          | none => left; rfl
          | some lonV => right; exact ⟨_, hseen, rfl⟩

/-- The row-loop invariant: every emitted feature's id is in `seen`, and
the emitted ids are pairwise distinct. -/
theorem joinRows_foldl_invariant (osmIds : List (String × String)) :
    ∀ (rows : List Row) (st : JoinState),
      (∀ f ∈ st.features, f.wikidata ∈ st.seen) →
      st.features.Pairwise (fun a b => a.wikidata ≠ b.wikidata) →
      (∀ f ∈ (rows.foldl (processRow osmIds) st).features,
          f.wikidata ∈ (rows.foldl (processRow osmIds) st).seen)
      ∧ (rows.foldl (processRow osmIds) st).features.Pairwise
          (fun a b => a.wikidata ≠ b.wikidata) := by
  intro rows
  induction rows with
  | nil => intro st h1 h2; exact ⟨h1, h2⟩
  | cons row rest ih =>
      intro st h1 h2
      simp only [List.foldl_cons]
      rcases processRow_cases osmIds st row with heq | ⟨f, hnot, heq⟩
      · rw [heq]; exact ih st h1 h2
      · rw [heq]
        apply ih
        · intro g hg
          rcases List.mem_append.mp hg with hg | hg
          · exact List.mem_cons_of_mem _ (h1 g hg)
          · simp only [List.mem_singleton] at hg
            subst hg
            exact List.mem_cons_self _ _
        · rw [List.pairwise_append]
          refine ⟨h2, by simp, ?_⟩
          intro a ha b hb
          simp only [List.mem_singleton] at hb
          subst hb
          intro hcontra
          exact hnot (hcontra ▸ h1 a ha)

theorem rowParses_elim (row : Row) (h : rowParses row = true) :
    ∃ q latV lonV, rowQid row = some q
      ∧ pyFloatOpt (pyOr row.lat row.latSigil) = some latV
      ∧ pyFloatOpt (pyOr row.lon row.lonSigil) = some lonV := by
  unfold rowParses at h
  simp only [Bool.and_eq_true, Option.isSome_iff_exists] at h
  obtain ⟨⟨⟨q, hq⟩, la, hla⟩, lo, hlo⟩ := h
  exact ⟨q, la, lo, hq, hla, hlo⟩

/-! ### Helper lemmas about the region pipeline -/

/-- One region iteration either leaves the metadata dict unchanged (no map
data at all) or overwrites exactly this region's entry. -/
theorem processRegion_meta_shape (nowStr : String) (oldMeta : List (String × RegionMeta))
    (st : RunState) (r : RegionRun) :
    (processRegion nowStr oldMeta st r).meta = st.meta ∨
    ∃ e, (processRegion nowStr oldMeta st r).meta = dinsert st.meta r.key e := by
  unfold processRegion
  cases hf : r.fetchResult with
  | some d => cases hc : r.catalogResult <;> (right; exact ⟨_, rfl⟩)
  | none =>
      cases hcache : r.cacheFile with
      | none => left; rfl
      | some d => cases hc : r.catalogResult <;> (right; exact ⟨_, rfl⟩)

theorem runRegions_meta_untouched (nowStr : String) (oldMeta : List (String × RegionMeta))
    (k : String) :
    ∀ (runs : List RegionRun) (st : RunState), (∀ r ∈ runs, r.key ≠ k) →
      dget? (runs.foldl (processRegion nowStr oldMeta) st).meta k = dget? st.meta k := by
  intro runs
  induction runs with
  | nil => intro st _; rfl
  | cons r rest ih =>
      intro st h
      simp only [List.foldl_cons]
      rw [ih _ (fun x hx => h x (List.mem_cons_of_mem _ hx))]
      rcases processRegion_meta_shape nowStr oldMeta st r with heq | ⟨e, heq⟩
      · rw [heq]
      · rw [heq, dget_dinsert_ne _ _ _ _ (h r (List.mem_cons_self _ _))]

theorem runRegions_meta_isSome (nowStr : String) (oldMeta : List (String × RegionMeta))
    (k : String) :
    ∀ (runs : List RegionRun) (st : RunState), (dget? st.meta k).isSome →
      (dget? (runs.foldl (processRegion nowStr oldMeta) st).meta k).isSome := by
  intro runs
  induction runs with
  | nil => intro st h; exact h
  | cons r rest ih =>
      intro st h
      simp only [List.foldl_cons]
      apply ih
      rcases processRegion_meta_shape nowStr oldMeta st r with heq | ⟨e, heq⟩
      · rw [heq]; exact h
      · rw [heq]; exact dget_dinsert_isSome _ _ _ _ h

/-! ### The claims -/

/-- C1: for every catalog record whose classification matches a configured
broad-class identifier, or (when the parent-count signal is enabled) whose
parent count exceeds 1, the Status Classifier assigns status `broad`,
whatever the MapIndex holds — in particular even when the record's id is
present in the index and step 1 tentatively returned `done`. -/
theorem c1_broad_override_precedence (cfg : ClassifierConfig)
    (idx : List (String × String)) (rec : CatalogRecord)
    (h : (∃ c, rec.classId = some c ∧ c ∈ cfg.broadClasses)
       ∨ (cfg.parentSignal = true ∧ ∃ n, rec.parentCount = some n ∧ 1 < n)) :
    (classify cfg idx rec).1 = Status.broad := by
  unfold classify
  rcases h with ⟨c, hc, hmem⟩ | ⟨hp, n, hn, hlt⟩
  · simp [hc, hmem]
  · simp [hp, hn, hlt]

/-- C1 witness: a record whose id is in the index and whose classification
is a configured broad class is classified `broad`, not `done`. -/
theorem c1_broad_override_precedence_witness :
    dget? [("Q100", "node/3")] "Q100" = some "node/3"
    ∧ (classify { broadClasses := ["Q46831", "Q4022"], parentSignal := false }
        [("Q100", "node/3")]
        { id := "Q100", lat := PyFloat.finite 45, lon := PyFloat.finite 9,
          label := "Monte Rosa", classId := some "Q46831", parentCount := none }).1
      = Status.broad :=
  ⟨by decide,
   c1_broad_override_precedence _ _ _ (Or.inl ⟨"Q46831", rfl, by decide⟩)⟩

/-- C3 counterexample: the code's token filter is `raw.startswith('Q')`
with no digit requirement, so the tokens `QABC` and `Q` alone do enter the
MapIndex, contradicting the claim that they never do. -/
theorem c3_normalizer_counterexample :
    dget? (buildOsmIds
        [{ type := "node", id := 1, tags := some [("wikidata", "QABC")] }]) "QABC"
      = some "node/1"
    ∧ dget? (buildOsmIds
        [{ type := "node", id := 2, tags := some [("wikidata", "Q")] }]) "Q"
      = some "node/2" := by
  exact ⟨by decide, by decide⟩

/-- C3 amended: the Identifier Normalizer splits on `;` and `,`, trims
whitespace and uppercases, but keeps every token that begins with `Q`,
digit or not; accordingly every identifier registered in the MapIndex
starts with `Q` (and nothing stronger holds). -/
theorem c3_normalizer_amended (els : List MapElement) (q r : String)
    (h : dget? (buildOsmIds els) q = some r) : pyStartsWith "Q" q = true :=
  buildOsmIds_keys_startQ els []
    (by intro q2 r2 h2; simp [dget?] at h2) q r h

/-- C3 amended witness: a lower-case, whitespace-padded token ` q123 ` is
registered under `Q123`, which starts with `Q`. -/
theorem c3_normalizer_amended_witness :
    dget? (buildOsmIds
        [{ type := "node", id := 3, tags := some [("wikidata", " q123 ")] }]) "Q123"
      = some "node/3"
    ∧ pyStartsWith "Q" "Q123" = true :=
  ⟨by decide,
   c3_normalizer_amended
     [{ type := "node", id := 3, tags := some [("wikidata", " q123 ")] }]
     "Q123" "node/3" (by decide)⟩

/-- C4 counterexample: the code tests only the exact tag key `wikidata`
(`if 'wikidata' in el.get('tags', {})`), so an element whose only
identifiers sit under the suffixed key `brand:wikidata` contributes
nothing to the MapIndex, contradicting the claim. -/
theorem c4_suffixed_key_counterexample :
    buildOsmIds [{ type := "node", id := 7, tags := some [("brand:wikidata", "Q42")] }]
      = [] := by
  decide

/-- C4 amended: the Map Index Builder registers identifiers only from the
tag keyed exactly `wikidata`; elements without that exact key — whatever
other keys they carry, including keys merely ending in `wikidata` —
contribute no entries, while the exact key registers every normalized
token against the element's reference. -/
theorem c4_exact_key_only :
    (∀ els : List MapElement, (∀ el ∈ els, tagGet? el "wikidata" = none) →
        buildOsmIds els = [])
    ∧ (∀ (d : List (String × String)) (el : MapElement) (q : String),
        q ∈ elementTokens el → dget? (addElement d el) q = some (refStr el)) := by
  constructor
  · have hgen : ∀ (els : List MapElement) (d : List (String × String)),
        (∀ el ∈ els, tagGet? el "wikidata" = none) → els.foldl addElement d = d := by
      intro els
      induction els with
      | nil => intro d _; rfl
      | cons el rest ih =>
          intro d h
          simp only [List.foldl_cons]
          have he : addElement d el = d := by
            simp [addElement, h el (List.mem_cons_self _ _)]
          rw [he]
          exact ih d (fun x hx => h x (List.mem_cons_of_mem _ hx))
    intro els h
    exact hgen els [] h
  · intro d el q hq
    rw [dget_addElement, if_pos hq]

/-- C4 amended witness: a `brand:wikidata`-only element yields an empty
index, and an element with the exact `wikidata` key registers its token. -/
theorem c4_exact_key_only_witness :
    (∀ el ∈ [({ type := "way", id := 4, tags := some [("brand:wikidata", "Q77")] } : MapElement)],
        tagGet? el "wikidata" = none)
    ∧ buildOsmIds [{ type := "way", id := 4, tags := some [("brand:wikidata", "Q77")] }] = []
    ∧ "Q9" ∈ elementTokens { type := "node", id := 5, tags := some [("wikidata", "Q9")] }
    ∧ dget? (addElement [] { type := "node", id := 5, tags := some [("wikidata", "Q9")] }) "Q9"
        = some "node/5" := by
  refine ⟨by decide, ?_, by decide, ?_⟩
  · exact c4_exact_key_only.1 _ (by decide)
  · exact c4_exact_key_only.2 [] _ "Q9" (by decide)

/-- C5 counterexample: the row loop applies no finiteness check — `float`
parses `inf` successfully, so a row whose latitude parses to an infinite
value is NOT skipped but emitted as a feature, contradicting the claim. -/
theorem c5_parser_counterexample :
    joinRows []
      [{ qid := some "Q1", qidSigil := none, lat := some "inf", latSigil := none,
         lon := some "9", lonSigil := none, label := some "Foo", labelSigil := none }]
      = [{ wikidata := "Q1", name := "Foo", status := "missing", osm_id := none,
           coordinates := (PyFloat.finite 9, PyFloat.inf) }] := by
  decide

/-- C5 amended: the Catalog Row Parser (which, being total, never raises)
skips a row when the identifier is absent or falsy, skips it when latitude
or longitude fail to parse as numbers at all (a `float` exception) — but
not when they parse to an infinite or NaN value — and when the label is
absent or falsy it defaults to the identifier. -/
theorem c5_parser_never_raises_amended :
    (∀ (osmIds : List (String × String)) (st : JoinState) (row : Row),
        pyTruthy (pyOr row.qid row.qidSigil) = false → processRow osmIds st row = st)
    ∧ (∀ (osmIds : List (String × String)) (st : JoinState) (row : Row),
        pyFloatOpt (pyOr row.lat row.latSigil) = none
          ∨ pyFloatOpt (pyOr row.lon row.lonSigil) = none →
        processRow osmIds st row = st)
    ∧ (∀ (osmIds : List (String × String)) (st : JoinState) (row : Row)
        (q : String) (latV lonV : PyFloat),
        rowQid row = some q → q ∉ st.seen →
        pyFloatOpt (pyOr row.lat row.latSigil) = some latV →
        pyFloatOpt (pyOr row.lon row.lonSigil) = some lonV →
        pyTruthy (pyOr row.label row.labelSigil) = false →
        processRow osmIds st row =
          { features := st.features ++
              [{ wikidata := q, name := q,
                 status := if pyTruthy (dget? osmIds q) then "done" else "missing",
                 osm_id := dget? osmIds q, coordinates := (lonV, latV) }],
            seen := q :: st.seen }) := by
  refine ⟨fun o s r h => processRow_skip_noqid o s r h,
          fun o s r h => processRow_skip_float o s r h, ?_⟩
  intro o s r q latV lonV hq hseen hlat hlon hlabel
  rw [processRow_emits o s r q latV lonV hq hseen hlat hlon,
      pyOr_of_falsy _ _ hlabel]
  rfl

/-- C5 amended witness: a row with falsy id is skipped, a row with an
unparsable latitude is skipped, and a well-formed row without a label gets
the identifier as its name. -/
theorem c5_parser_never_raises_amended_witness :
    processRow [] { features := [], seen := [] }
        { qid := none, qidSigil := some "", lat := some "1", latSigil := none,
          lon := some "2", lonSigil := none, label := none, labelSigil := none }
      = { features := [], seen := [] }
    ∧ processRow [] { features := [], seen := [] }
        { qid := some "Q5", qidSigil := none, lat := some "junk", latSigil := none,
          lon := some "2", lonSigil := none, label := some "A", labelSigil := none }
      = { features := [], seen := [] }
    ∧ processRow [] { features := [], seen := [] }
        { qid := some "Q7", qidSigil := none, lat := some "4", latSigil := none,
          lon := some "9", lonSigil := none, label := none, labelSigil := none }
      = { features := [{ wikidata := "Q7", name := "Q7", status := "missing",
                         osm_id := none,
                         coordinates := (PyFloat.finite 9, PyFloat.finite 4) }],
          seen := ["Q7"] } := by
  refine ⟨c5_parser_never_raises_amended.1 [] _ _ (by decide),
          c5_parser_never_raises_amended.2.1 [] _ _ (Or.inl (by decide)), ?_⟩
  rw [c5_parser_never_raises_amended.2.2 [] { features := [], seen := [] } _
      "Q7" (PyFloat.finite 4) (PyFloat.finite 9)
      (by decide) (by decide) (by decide) (by decide) (by decide)]
  decide

/-- C2 counterexample: region `lom` has a prior metadata entry; its map
fetch succeeds but its catalog fetch fails, so no output file is written
for it — yet because line 196 updates `new_region_meta` before the catalog
fetch, the persisted metadata (written because region `ven` succeeded)
carries a fresh entry for `lom`, not the prior one, contradicting the
claimed "no metadata update for this region". -/
theorem c2_catalog_failure_counterexample :
    (runRegions "2025-06-01 12:00 UTC"
        [("lom", { osm := some "2024-01-01 10:00 UTC", wiki := some "2024-01-01 10:00 UTC" })]
        [{ key := "lom", fetchResult := some [], cacheFile := none, catalogResult := none },
         { key := "ven", fetchResult := some [], cacheFile := none, catalogResult := some [] }]).outputs
      = [("ven", [])]
    ∧ (persistedMeta (runRegions "2025-06-01 12:00 UTC"
        [("lom", { osm := some "2024-01-01 10:00 UTC", wiki := some "2024-01-01 10:00 UTC" })]
        [{ key := "lom", fetchResult := some [], cacheFile := none, catalogResult := none },
         { key := "ven", fetchResult := some [], cacheFile := none, catalogResult := some [] }])).bind
        (fun m => dget? m "lom")
      = some { osm := some "2025-06-01 12:00 UTC", wiki := some "2025-06-01 12:00 UTC" }
    ∧ (persistedMeta (runRegions "2025-06-01 12:00 UTC"
        [("lom", { osm := some "2024-01-01 10:00 UTC", wiki := some "2024-01-01 10:00 UTC" })]
        [{ key := "lom", fetchResult := some [], cacheFile := none, catalogResult := none },
         { key := "ven", fetchResult := some [], cacheFile := none, catalogResult := some [] }])).bind
        (fun m => dget? m "lom")
      ≠ some { osm := some "2024-01-01 10:00 UTC", wiki := some "2024-01-01 10:00 UTC" } := by
  refine ⟨by decide, by decide, by decide⟩

/-- C2 amended: when a region's catalog fetch fails (map data being
available), the region is skipped with no output file written and the
processed count unchanged — but its run-metadata entry has already been
overwritten with the current run's map freshness and a live catalog
timestamp; the prior entry is not retained. -/
theorem c2_catalog_failure_updates_meta (nowStr : String)
    (oldMeta : List (String × RegionMeta)) (st : RunState) (r : RegionRun)
    (d : List MapElement) (hf : r.fetchResult = some d) (hc : r.catalogResult = none) :
    (processRegion nowStr oldMeta st r).outputs = st.outputs
    ∧ (processRegion nowStr oldMeta st r).processed = st.processed
    ∧ (processRegion nowStr oldMeta st r).meta =
        dinsert st.meta r.key { osm := some nowStr, wiki := some nowStr } := by
  refine ⟨?_, ?_, ?_⟩ <;> simp [processRegion, hf, hc]

/-- C2 amended witness. -/
theorem c2_catalog_failure_updates_meta_witness :
    (processRegion "T0" [] { meta := [], outputs := [], processed := 0 }
        { key := "rx", fetchResult := some [], cacheFile := none, catalogResult := none }).outputs
      = []
    ∧ (processRegion "T0" [] { meta := [], outputs := [], processed := 0 }
        { key := "rx", fetchResult := some [], cacheFile := none, catalogResult := none }).processed
      = 0
    ∧ (processRegion "T0" [] { meta := [], outputs := [], processed := 0 }
        { key := "rx", fetchResult := some [], cacheFile := none, catalogResult := none }).meta
      = dinsert [] "rx" { osm := some "T0", wiki := some "T0" } :=
  c2_catalog_failure_updates_meta "T0" [] { meta := [], outputs := [], processed := 0 }
    { key := "rx", fetchResult := some [], cacheFile := none, catalogResult := none } [] rfl rfl

/-- C6: the emitted feature sequence of one region holds pairwise distinct
ids (at most one feature per canonical id), and when two rows share a
canonical id and the first one parses, the second is dropped: the result
equals that of the first row alone, exactly one feature, carrying the
first-seen row's data. -/
theorem c6_dedup_first_wins :
    (∀ (osmIds : List (String × String)) (rows : List Row),
        (joinRows osmIds rows).Pairwise (fun a b => a.wikidata ≠ b.wikidata))
    ∧ (∀ (osmIds : List (String × String)) (r1 r2 : Row),
        rowParses r1 = true → rowQid r1 = rowQid r2 →
        joinRows osmIds [r1, r2] = joinRows osmIds [r1]
        ∧ (joinRows osmIds [r1]).length = 1) := by
  constructor
  · intro osmIds rows
    exact (joinRows_foldl_invariant osmIds rows { features := [], seen := [] }
      (by simp) (by simp)).2
  · intro osmIds r1 r2 hp hq
    obtain ⟨q, latV, lonV, hq1, hlat, hlon⟩ := rowParses_elim r1 hp
    have hemit := processRow_emits osmIds { features := [], seen := [] } r1 q latV lonV
      hq1 (by simp) hlat hlon
    have hq2 : rowQid r2 = some q := by rw [← hq, hq1]
    constructor
    · unfold joinRows
      simp only [List.foldl_cons, List.foldl_nil]
      rw [hemit, processRow_skip_seen osmIds _ r2 q hq2 (List.mem_cons_self _ _)]
    · unfold joinRows
      simp only [List.foldl_cons, List.foldl_nil]
      rw [hemit]
      simp

/-- C6 witness: two concrete rows with id `Q3`, both well-formed; the
output is the single feature of the first row. -/
theorem c6_dedup_first_wins_witness :
    rowParses { qid := some "Q3", qidSigil := none, lat := some "1", latSigil := none,
                lon := some "2", lonSigil := none, label := some "A", labelSigil := none }
      = true
    ∧ rowQid { qid := some "Q3", qidSigil := none, lat := some "1", latSigil := none,
               lon := some "2", lonSigil := none, label := some "A", labelSigil := none }
      = rowQid { qid := some "Q3", qidSigil := none, lat := some "5", latSigil := none,
                 lon := some "6", lonSigil := none, label := some "B", labelSigil := none }
    ∧ joinRows []
        [{ qid := some "Q3", qidSigil := none, lat := some "1", latSigil := none,
           lon := some "2", lonSigil := none, label := some "A", labelSigil := none },
         { qid := some "Q3", qidSigil := none, lat := some "5", latSigil := none,
           lon := some "6", lonSigil := none, label := some "B", labelSigil := none }]
      = joinRows []
        [{ qid := some "Q3", qidSigil := none, lat := some "1", latSigil := none,
           lon := some "2", lonSigil := none, label := some "A", labelSigil := none }]
    ∧ (joinRows []
        [{ qid := some "Q3", qidSigil := none, lat := some "1", latSigil := none,
           lon := some "2", lonSigil := none, label := some "A", labelSigil := none }]).length
      = 1 := by
  refine ⟨by decide, by decide, ?_, ?_⟩
  · exact (c6_dedup_first_wins.2 []
      { qid := some "Q3", qidSigil := none, lat := some "1", latSigil := none,
        lon := some "2", lonSigil := none, label := some "A", labelSigil := none }
      { qid := some "Q3", qidSigil := none, lat := some "5", latSigil := none,
        lon := some "6", lonSigil := none, label := some "B", labelSigil := none }
      (by decide) (by decide)).1
  · exact (c6_dedup_first_wins.2 []
      { qid := some "Q3", qidSigil := none, lat := some "1", latSigil := none,
        lon := some "2", lonSigil := none, label := some "A", labelSigil := none }
      { qid := some "Q3", qidSigil := none, lat := some "5", latSigil := none,
        lon := some "6", lonSigil := none, label := some "B", labelSigil := none }
      (by decide) (by decide)).2

/-- C7: for every iterable of map elements in which two or more elements
carry the same normalized identifier — written as an arbitrary prefix
holding at least one carrier, then the last carrier, then arbitrary
further elements none of which carries the identifier — the MapIndex
built from the whole iterable contains exactly one entry for that
identifier, whose reference is the last-processed carrier's
`"{kind}/{id}"` (overwrite semantics, no error); and elements with no
tags or without the reconciliation key are tolerated, contributing
nothing. -/
theorem c7_index_last_wins (pre post : List MapElement) (el : MapElement) (q : String)
    (hcarrier : ∃ e ∈ pre, q ∈ elementTokens e)
    (hel : q ∈ elementTokens el)
    (hpost : ∀ e ∈ post, q ∉ elementTokens e) :
    dget? (buildOsmIds (pre ++ el :: post)) q = some (refStr el)
    ∧ ((buildOsmIds (pre ++ el :: post)).filter (fun p => p.1 = q)).length = 1
    ∧ ∀ (d : List (String × String)) (el2 : MapElement),
        el2.tags = none ∨ tagGet? el2 "wikidata" = none → addElement d el2 = d := by
  have hget : dget? (buildOsmIds (pre ++ el :: post)) q = some (refStr el) := by
    unfold buildOsmIds
    rw [List.foldl_append]
    simp only [List.foldl_cons]
    rw [dget_foldl_not_mem q post _ hpost, dget_addElement, if_pos hel]
  refine ⟨hget,
    filter_key_length _ q _ (keys_nodup_buildOsmIds (pre ++ el :: post)) hget, ?_⟩
  intro d el2 h
  have htag : tagGet? el2 "wikidata" = none := by
    rcases h with h | h
    · simp [tagGet?, h, dget?]
    · exact h
  simp [addElement, htag]

/-- C7 witness: a four-element iterable — a node carrying `Q5`, a tagless
relation, a way also normalizing to `Q5` (the last carrier), then a node
carrying only `Q6` — indexes `Q5` to the way, in a single entry. -/
theorem c7_index_last_wins_witness :
    ((∃ e ∈ [({ type := "node", id := 1, tags := some [("wikidata", "Q5")] } : MapElement),
              { type := "relation", id := 7, tags := none }],
        "Q5" ∈ elementTokens e)
      ∧ "Q5" ∈ elementTokens { type := "way", id := 2, tags := some [("wikidata", " q5 ")] }
      ∧ ∀ e ∈ [({ type := "node", id := 9, tags := some [("wikidata", "Q6")] } : MapElement)],
          "Q5" ∉ elementTokens e)
    ∧ dget? (buildOsmIds
        ([{ type := "node", id := 1, tags := some [("wikidata", "Q5")] },
          { type := "relation", id := 7, tags := none }] ++
         { type := "way", id := 2, tags := some [("wikidata", " q5 ")] } ::
         [{ type := "node", id := 9, tags := some [("wikidata", "Q6")] }])) "Q5"
      = some "way/2"
    ∧ ((buildOsmIds
        ([{ type := "node", id := 1, tags := some [("wikidata", "Q5")] },
          { type := "relation", id := 7, tags := none }] ++
         { type := "way", id := 2, tags := some [("wikidata", " q5 ")] } ::
         [{ type := "node", id := 9, tags := some [("wikidata", "Q6")] }])).filter
          (fun p => p.1 = "Q5")).length = 1 := by
  refine ⟨⟨by decide, by decide, by decide⟩, ?_, ?_⟩
  · exact (c7_index_last_wins
      [{ type := "node", id := 1, tags := some [("wikidata", "Q5")] },
       { type := "relation", id := 7, tags := none }]
      [{ type := "node", id := 9, tags := some [("wikidata", "Q6")] }]
      { type := "way", id := 2, tags := some [("wikidata", " q5 ")] }
      "Q5" (by decide) (by decide) (by decide)).1
  · exact (c7_index_last_wins
      [{ type := "node", id := 1, tags := some [("wikidata", "Q5")] },
       { type := "relation", id := 7, tags := none }]
      [{ type := "node", id := 9, tags := some [("wikidata", "Q6")] }]
      { type := "way", id := 2, tags := some [("wikidata", " q5 ")] }
      "Q5" (by decide) (by decide) (by decide)).2.1

/-- C8: the cache-fallback freshness annotation is idempotent — marking is
applied exactly once: re-marking changes nothing, the marked value always
contains `"(Cached)"`, a value already containing it is carried over
unchanged, and on the cache-fallback path the region's metadata keeps the
prior (marked) OSM date rather than any live timestamp. -/
theorem c8_cache_mark_idempotent :
    (∀ s : String, markCached (markCached s) = markCached s)
    ∧ (∀ s : String, strContains "(Cached)" (markCached s) = true)
    ∧ (∀ s : String, strContains "(Cached)" s = true → markCached s = s)
    ∧ ∀ (nowStr : String) (oldMeta : List (String × RegionMeta)) (st : RunState)
        (r : RegionRun) (d : List MapElement) (e : RegionMeta),
        r.fetchResult = none → r.cacheFile = some d → dget? oldMeta r.key = some e →
        (processRegion nowStr oldMeta st r).meta =
          dinsert st.meta r.key
            { osm := some (markCached (e.osm.getD "Unknown")), wiki := some nowStr } := by
  refine ⟨markCached_idem, markCached_contains, markCached_of_contains, ?_⟩
  intro nowStr oldMeta st r d e hf hcache hold
  cases hc : r.catalogResult <;>
    simp [processRegion, hf, hcache, hc, cacheFallbackDate, hold]

/-- C8 witness: a fresh date gets the mark once; an already-marked date is
carried over unchanged by the pipeline's cache-fallback path. -/
theorem c8_cache_mark_idempotent_witness :
    markCached (markCached "2024-01-01 10:00 UTC") = markCached "2024-01-01 10:00 UTC"
    ∧ strContains "(Cached)" (markCached "2024-01-01 10:00 UTC") = true
    ∧ markCached "2024-01-01 10:00 UTC (Cached)" = "2024-01-01 10:00 UTC (Cached)"
    ∧ (processRegion "2025-02-02 08:00 UTC"
        [("rk", { osm := some "2024-01-01 10:00 UTC (Cached)", wiki := some "w" })]
        { meta := [], outputs := [], processed := 0 }
        { key := "rk", fetchResult := none, cacheFile := some [], catalogResult := none }).meta
      = dinsert [] "rk"
          { osm := some (markCached "2024-01-01 10:00 UTC (Cached)"),
            wiki := some "2025-02-02 08:00 UTC" } :=
  ⟨c8_cache_mark_idempotent.1 _,
   c8_cache_mark_idempotent.2.1 _,
   c8_cache_mark_idempotent.2.2.1 _ (by decide),
   c8_cache_mark_idempotent.2.2.2 "2025-02-02 08:00 UTC"
     [("rk", { osm := some "2024-01-01 10:00 UTC (Cached)", wiki := some "w" })]
     { meta := [], outputs := [], processed := 0 }
     { key := "rk", fetchResult := none, cacheFile := some [], catalogResult := none }
     [] { osm := some "2024-01-01 10:00 UTC (Cached)", wiki := some "w" }
     rfl rfl (by decide)⟩

/-- C9 counterexample: region `pie` has a prior entry and does not reach
EMIT this run (its catalog fetch fails, no output written), yet the
persisted merged metadata carries a new entry for it, contradicting
"only regions reaching EMIT have their entry overwritten". -/
theorem c9_merge_counterexample :
    (runRegions "2026-03-03 09:00 UTC"
        [("pie", { osm := some "2023-05-05 08:00 UTC", wiki := some "2023-05-05 08:00 UTC" })]
        [{ key := "pie", fetchResult := some [], cacheFile := none, catalogResult := none },
         { key := "lig", fetchResult := some [], cacheFile := none, catalogResult := some [] }]).outputs
      = [("lig", [])]
    ∧ (persistedMeta (runRegions "2026-03-03 09:00 UTC"
        [("pie", { osm := some "2023-05-05 08:00 UTC", wiki := some "2023-05-05 08:00 UTC" })]
        [{ key := "pie", fetchResult := some [], cacheFile := none, catalogResult := none },
         { key := "lig", fetchResult := some [], cacheFile := none, catalogResult := some [] }])).bind
        (fun m => dget? m "pie")
      = some { osm := some "2026-03-03 09:00 UTC", wiki := some "2026-03-03 09:00 UTC" }
    ∧ (persistedMeta (runRegions "2026-03-03 09:00 UTC"
        [("pie", { osm := some "2023-05-05 08:00 UTC", wiki := some "2023-05-05 08:00 UTC" })]
        [{ key := "pie", fetchResult := some [], cacheFile := none, catalogResult := none },
         { key := "lig", fetchResult := some [], cacheFile := none, catalogResult := some [] }])).bind
        (fun m => dget? m "pie")
      ≠ some { osm := some "2023-05-05 08:00 UTC", wiki := some "2023-05-05 08:00 UTC" } := by
  refine ⟨by decide, by decide, by decide⟩

/-- C9 amended: the metadata merge never drops an entry — a key present in
the prior metadata is still present after the run — and a region whose key
is not touched by the run retains its prior entry unchanged; however an
entry is overwritten as soon as its region passes the map-data stage, even
when the region then fails before EMIT. -/
theorem c9_merge_amended (nowStr : String) (oldMeta : List (String × RegionMeta))
    (runs : List RegionRun) (k : String) :
    ((∀ r ∈ runs, r.key ≠ k) →
        dget? (runRegions nowStr oldMeta runs).meta k = dget? oldMeta k)
    ∧ ((dget? oldMeta k).isSome →
        (dget? (runRegions nowStr oldMeta runs).meta k).isSome) := by
  constructor
  · intro h
    exact runRegions_meta_untouched nowStr oldMeta k runs
      { meta := oldMeta, outputs := [], processed := 0 } h
  · intro h
    exact runRegions_meta_isSome nowStr oldMeta k runs
      { meta := oldMeta, outputs := [], processed := 0 } h

/-- C9 amended witness: a run touching only `tos` leaves the prior entry
of `umb` exactly as it was, and drops no entry. -/
theorem c9_merge_amended_witness :
    (∀ r ∈ [({ key := "tos", fetchResult := some [], cacheFile := none,
               catalogResult := some [] } : RegionRun)], r.key ≠ "umb")
    ∧ dget? (runRegions "T1" [("umb", { osm := some "D1", wiki := some "D2" })]
        [{ key := "tos", fetchResult := some [], cacheFile := none,
           catalogResult := some [] }]).meta "umb"
      = dget? [("umb", { osm := some "D1", wiki := some "D2" })] "umb"
    ∧ (dget? (runRegions "T1" [("umb", { osm := some "D1", wiki := some "D2" })]
        [{ key := "tos", fetchResult := some [], cacheFile := none,
           catalogResult := some [] }]).meta "umb").isSome := by
  refine ⟨by decide, ?_, ?_⟩
  · exact (c9_merge_amended "T1" [("umb", { osm := some "D1", wiki := some "D2" })]
      [{ key := "tos", fetchResult := some [], cacheFile := none,
         catalogResult := some [] }] "umb").1 (by decide)
  · exact (c9_merge_amended "T1" [("umb", { osm := some "D1", wiki := some "D2" })]
      [{ key := "tos", fetchResult := some [], cacheFile := none,
         catalogResult := some [] }] "umb").2 (by decide)

/-- C10: a row skipped because its latitude or longitude fails to parse
does not consume its identifier — it is not added to `seen` — so a later
well-formed row with the same canonical id still produces the feature. -/
theorem c10_skip_not_consume (osmIds : List (String × String)) (r1 r2 : Row) (q : String)
    (hq1 : rowQid r1 = some q)
    (hbad : pyFloatOpt (pyOr r1.lat r1.latSigil) = none
          ∨ pyFloatOpt (pyOr r1.lon r1.lonSigil) = none)
    (hq2 : rowQid r2 = some q) (hp2 : rowParses r2 = true) :
    joinRows osmIds [r1, r2] = joinRows osmIds [r2]
    ∧ (joinRows osmIds [r2]).length = 1 := by
  have hskip := processRow_skip_float osmIds { features := [], seen := [] } r1 hbad
  constructor
  · unfold joinRows
    simp only [List.foldl_cons, List.foldl_nil]
    rw [hskip]
  · obtain ⟨q2, latV, lonV, hq2b, hlat, hlon⟩ := rowParses_elim r2 hp2
    unfold joinRows
    simp only [List.foldl_cons, List.foldl_nil]
    rw [processRow_emits osmIds { features := [], seen := [] } r2 q2 latV lonV
      hq2b (by simp) hlat hlon]
    simp

/-- C10 witness: a bad-latitude row with id `Q9`, then a well-formed row
with the same id: the feature is still produced, exactly once. -/
theorem c10_skip_not_consume_witness :
    rowQid { qid := some "Q9", qidSigil := none, lat := some "oops", latSigil := none,
             lon := some "2", lonSigil := none, label := some "A", labelSigil := none }
      = some "Q9"
    ∧ rowParses { qid := some "Q9", qidSigil := none, lat := some "3", latSigil := none,
                  lon := some "4", lonSigil := none, label := some "B", labelSigil := none }
      = true
    ∧ joinRows []
        [{ qid := some "Q9", qidSigil := none, lat := some "oops", latSigil := none,
           lon := some "2", lonSigil := none, label := some "A", labelSigil := none },
         { qid := some "Q9", qidSigil := none, lat := some "3", latSigil := none,
           lon := some "4", lonSigil := none, label := some "B", labelSigil := none }]
      = joinRows []
        [{ qid := some "Q9", qidSigil := none, lat := some "3", latSigil := none,
           lon := some "4", lonSigil := none, label := some "B", labelSigil := none }]
    ∧ (joinRows []
        [{ qid := some "Q9", qidSigil := none, lat := some "3", latSigil := none,
           lon := some "4", lonSigil := none, label := some "B", labelSigil := none }]).length
      = 1 := by
  refine ⟨by decide, by decide, ?_, ?_⟩
  · exact (c10_skip_not_consume []
      { qid := some "Q9", qidSigil := none, lat := some "oops", latSigil := none,
        lon := some "2", lonSigil := none, label := some "A", labelSigil := none }
      { qid := some "Q9", qidSigil := none, lat := some "3", latSigil := none,
        lon := some "4", lonSigil := none, label := some "B", labelSigil := none }
      "Q9" (by decide) (Or.inl (by decide)) (by decide) (by decide)).1
  · exact (c10_skip_not_consume []
      { qid := some "Q9", qidSigil := none, lat := some "oops", latSigil := none,
        lon := some "2", lonSigil := none, label := some "A", labelSigil := none }
      { qid := some "Q9", qidSigil := none, lat := some "3", latSigil := none,
        lon := some "4", lonSigil := none, label := some "B", labelSigil := none }
      "Q9" (by decide) (Or.inl (by decide)) (by decide) (by decide)).2
